import Mathlib

/- A shallow embedding of src/innernet_manager.py (class InnernetManager and
   its SQLite-backed state).  The SQLite tables are modelled as lists of
   records, uuid4 identifiers as a fresh-id counter, and the os.urandom key
   material as a deterministic placeholder derived from that counter (no claim
   concerns key material).  A CIDR argument is modelled pre-parsed: an argument
   of the form some c stands for a string that ipaddress.ip_network accepts,
   yielding the network c, and none stands for a string that makes it raise
   ValueError.  Database constraint violations (UNIQUE name on networks,
   UNIQUE (network_id, name) on peers) surface as errors, like the ValueError
   raises do; on an error the connection context manager rolls the transaction
   back, so the state is unchanged.  Timestamps (created_at, datetime.now)
   are irrelevant to every claim and are omitted. -/

namespace Innernet

/-- IP version, network address and prefix length of a value produced by
    ipaddress.ip_network. -/
structure Cidr where
  v6 : Bool
  base : Nat
  prefixlen : Nat
deriving DecidableEq

/-- Address width: 128 bits for IPv6, 32 for IPv4. -/
def Cidr.width (c : Cidr) : Nat := if c.v6 then 128 else 32

/-- Number of addresses in the block. -/
def Cidr.numAddrs (c : Cidr) : Nat := 2 ^ (c.width - c.prefixlen)

/-- Python ipaddress hosts(): for IPv4 all addresses except network and
    broadcast, except that /31 and /32 yield every address; for IPv6 all
    addresses except the network address, except that /127 and /128 yield
    every address.  Ascending, as the Python iterator yields. -/
def hostsList (c : Cidr) : List Nat :=
  if c.v6 then
    if 127 ≤ c.prefixlen then (List.range c.numAddrs).map (fun i => c.base + i)
    else (List.range (c.numAddrs - 1)).map (fun i => c.base + 1 + i)
  else
    if 31 ≤ c.prefixlen then (List.range c.numAddrs).map (fun i => c.base + i)
    else (List.range (c.numAddrs - 2)).map (fun i => c.base + 1 + i)

/-- Dotted-quad rendering of an IPv4 address number, as Python str on an
    IPv4Address value. -/
def ipv4Str (a : Nat) : String :=
  toString (a / 16777216 % 256) ++ "." ++ toString (a / 65536 % 256) ++ "." ++
    toString (a / 256 % 256) ++ "." ++ toString (a % 256)

/-- Lowercase hexadecimal digit. -/
def hexChar (n : Nat) : Char := if n < 10 then Char.ofNat (48 + n) else Char.ofNat (87 + n)

/-- Lowercase hexadecimal rendering, without leading zeros, of a 16-bit
    group (Python percent-x formatting). -/
def hextetStr (n : Nat) : String :=
  if n < 16 then String.mk [hexChar n]
  else if n < 256 then String.mk [hexChar (n / 16), hexChar (n % 16)]
  else if n < 4096 then String.mk [hexChar (n / 256), hexChar (n / 16 % 16), hexChar (n % 16)]
  else String.mk [hexChar (n / 4096), hexChar (n / 256 % 16), hexChar (n / 16 % 16), hexChar (n % 16)]

/-- The eight 16-bit groups of an IPv6 address number, rendered in hex. -/
def ipv6Groups (a : Nat) : List String :=
  [hextetStr (a / 2 ^ 112 % 65536), hextetStr (a / 2 ^ 96 % 65536),
   hextetStr (a / 2 ^ 80 % 65536), hextetStr (a / 2 ^ 64 % 65536),
   hextetStr (a / 2 ^ 48 % 65536), hextetStr (a / 2 ^ 32 % 65536),
   hextetStr (a / 2 ^ 16 % 65536), hextetStr (a % 65536)]

/-- Mirror of the scanning loop of ipaddress _compress_hextets: best start
    index (or -1) and length of a run of "0" groups.  Arguments: remaining
    groups, current index, best start, best length, current start, current
    length. -/
def bestRunAux : List String → Nat → Int → Nat → Int → Nat → Int × Nat
  | [], _, bs, bl, _, _ => (bs, bl)
  | h :: t, idx, bs, bl, cs, cl =>
    if h = "0" then
      let cs' := if cs = -1 then (idx : Int) else cs
      let cl' := cl + 1
      if bl < cl' then bestRunAux t (idx + 1) cs' cl' cs' cl'
      else bestRunAux t (idx + 1) bs bl cs' cl'
    else bestRunAux t (idx + 1) bs bl (-1) 0

/-- Python ':'.join. -/
def joinColon : List String → String
  | [] => ""
  | [s] => s
  | s :: t => s ++ ":" ++ joinColon t

/-- Compressed rendering of an IPv6 address number, as Python str on an
    IPv6Address value (ipaddress _string_from_ip_int with
    _compress_hextets). -/
def ipv6Str (a : Nat) : String :=
  let hx := ipv6Groups a
  let best := bestRunAux hx 0 (-1) 0 (-1) 0
  if 1 < best.2 then
    let bs := best.1.toNat
    let bl := best.2
    let hx1 := if bs + bl = hx.length then hx ++ [""] else hx
    let hx2 := hx1.take bs ++ [""] ++ hx1.drop (bs + bl)
    joinColon (if bs = 0 then "" :: hx2 else hx2)
  else joinColon hx

/-- Python str of an address number of the given version. -/
def ipToStr (v6 : Bool) (a : Nat) : String := if v6 then ipv6Str a else ipv4Str a

/-- A row of the networks table (created_at omitted, see the header). -/
structure Network where
  id : Nat
  name : String
  cidr : Cidr
  description : String
  peer_count : Int
deriving DecidableEq

/-- A row of the peers table. -/
structure Peer where
  id : Nat
  network_id : Nat
  name : String
  ip : Option String
  public_key : String
  allowed_ips : String
  endpoint : Option String
  last_handshake : Option String
  status : String
  groups : List String
deriving DecidableEq

/-- The persisted state: the two tables plus a fresh-identifier counter
    standing in for uuid4. -/
structure DB where
  networks : List Network
  peers : List Peer
  next_id : Nat
deriving DecidableEq

/-- Failure outcomes: the ValueError raises of the source, plus the UNIQUE
    constraint violations of the schema, surfaced as duplicateName. -/
inductive Err
  | invalidCIDR
  | duplicateName
  | networkNotFound
  | peerNotFound
  | invalidGroup
deriving DecidableEq

/-- The state with empty tables. -/
def emptyDB : DB := ⟨[], [], 0⟩

/-- Embeds InnernetManager.create_network: validate the CIDR, then INSERT
    the new row (the UNIQUE constraint on name rejects a duplicate). -/
def create_network (db : DB) (name : String) (cidr : Option Cidr) (description : String) :
    Except Err (Nat × DB) :=
  match cidr with
  | none => .error .invalidCIDR
  | some c =>
    if db.networks.any (fun n => n.name == name) then .error .duplicateName
    else
      .ok (db.next_id,
        { db with
          networks := db.networks ++
            [{ id := db.next_id, name := name, cidr := c, description := description,
               peer_count := 0 }],
          next_id := db.next_id + 1 })

/-- SELECT ip FROM peers WHERE network_id = ?, keeping only truthy values:
    the set comprehension of add_peer drops NULL and empty strings. -/
def existingIps (db : DB) (network_id : Nat) : List String :=
  ((db.peers.filter (fun p => p.network_id == network_id)).filterMap Peer.ip).filter
    (fun s => s != "")

/-- The auto-assignment loop of add_peer over network.hosts(): the first
    candidate whose string is not among the existing IPs, if any (on
    exhaustion the loop leaves ip as None). -/
def autoAssign (c : Cidr) (existing : List String) : Option String :=
  ((hostsList c).find? (fun a => !(existing.contains (ipToStr c.v6 a)))).map
    (fun a => ipToStr c.v6 a)

/-- The peer record that add_peer INSERTs. -/
def newPeer (pid network_id : Nat) (name : String) (ip : Option String) : Peer :=
  { id := pid, network_id := network_id, name := name, ip := ip,
    public_key := "pk" ++ toString pid,
    allowed_ips := (match ip with | some s => s | none => "None") ++ "/32",
    endpoint := none, last_handshake := none,
    status := "disconnected", groups := [] }

/-- UPDATE networks SET peer_count = peer_count + 1 WHERE id = ?. -/
def bumpNetworks (l : List Network) (network_id : Nat) : List Network :=
  l.map (fun n => if n.id = network_id then { n with peer_count := n.peer_count + 1 } else n)

/-- Embeds InnernetManager.add_peer: look the network up, auto-assign the ip
    when none is supplied, INSERT the peer (the UNIQUE (network_id, name)
    constraint rejects a duplicate name), and bump peer_count. -/
def add_peer (db : DB) (network_id : Nat) (name : String) (ip : Option String) :
    Except Err (Nat × DB) :=
  match db.networks.find? (fun n => n.id == network_id) with
  | none => .error .networkNotFound
  | some nw =>
    let ip := match ip with
      | some s => some s
      | none => autoAssign nw.cidr (existingIps db network_id)
    if db.peers.any (fun p => p.network_id == network_id && p.name == name) then
      .error .duplicateName
    else
      .ok (db.next_id,
        { db with
          peers := db.peers ++ [newPeer db.next_id network_id name ip],
          networks := bumpNetworks db.networks network_id,
          next_id := db.next_id + 1 })

/-- Embeds InnernetManager.remove_peer: DELETE the rows matching
    (network_id, name), then decrement peer_count WHERE id = ? AND
    peer_count is positive.  The method raises nothing. -/
def remove_peer (db : DB) (network_id : Nat) (peer_name : String) : DB :=
  { db with
    peers := db.peers.filter (fun p => !(p.network_id == network_id && p.name == peer_name)),
    networks := db.networks.map (fun n =>
      if n.id = network_id ∧ 0 < n.peer_count then { n with peer_count := n.peer_count - 1 }
      else n) }

/-- The fixed closed group set of assign_group. -/
def validGroups : List String := ["admin", "workers", "sensors", "public", "internal"]

/-- Embeds InnernetManager.assign_group.  The SELECT reads the first row
    with the given name; the UPDATE rewrites every row with that name. -/
def assign_group (db : DB) (peer_name grp : String) : Except Err DB :=
  if validGroups.contains grp then
    match db.peers.find? (fun p => p.name == peer_name) with
    | none => .error .peerNotFound
    | some p =>
      let groups := if p.groups.contains grp then p.groups else p.groups ++ [grp]
      .ok { db with
        peers := db.peers.map (fun q =>
          if q.name == peer_name then { q with groups := groups } else q) }
  else .error .invalidGroup

/-- The aggregate that get_status returns (timestamp omitted). -/
structure StatusResult where
  networks : List Network
  connected_peers : Nat
  total_peers : Int
deriving DecidableEq

/-- Embeds InnernetManager.get_status; the second component is the state
    after the call (the method only SELECTs, so it hands the state back). -/
def get_status (db : DB) : StatusResult × DB :=
  ({ networks := db.networks,
     connected_peers := (db.peers.filter (fun p => p.status == "connected")).length,
     total_peers := (db.networks.map Network.peer_count).foldl (fun a b => a + b) 0 }, db)

/-- One call in a sequence of peer additions and removals. -/
inductive Act
  | add (network_id : Nat) (name : String) (ip : Option String)
  | remove (network_id : Nat) (name : String)

/-- Effect of one call on the persisted state (a raised error rolls the
    transaction back, leaving the state unchanged). -/
def step (db : DB) : Act → DB
  | .add nid nm ip =>
    match add_peer db nid nm ip with
    | .ok r => r.2
    | .error _ => db
  | .remove nid nm => remove_peer db nid nm

/-- Effect of a sequence of calls. -/
def run (db : DB) (acts : List Act) : DB := acts.foldl step db

/-- Checks that every removal in the sequence targets a then-existing peer. -/
def goodRun : DB → List Act → Bool
  | _, [] => true
  | db, a :: rest =>
    (match a with
     | .add _ _ _ => true
     | .remove nid nm => db.peers.any (fun p => p.network_id == nid && p.name == nm)) &&
      goodRun (step db a) rest

/-- One call targets an existing peer (always true for additions). -/
def actOk (db : DB) : Act → Prop
  | .add _ _ _ => True
  | .remove nid nm => db.peers.any (fun p => p.network_id == nid && p.name == nm) = true

/-- One call supplies no explicit IP (always true for removals). -/
def actAuto : Act → Prop
  | .add _ _ ip => ip = none
  | .remove _ _ => True

/-- Number of peer rows referencing a network. -/
def peerRows (db : DB) (nid : Nat) : Nat := db.peers.countP (fun p => p.network_id == nid)

/-- The schema constraint UNIQUE (network_id, name) on the peers table. -/
def UniqueNames (db : DB) : Prop :=
  db.peers.Pairwise (fun p q => ¬(p.network_id = q.network_id ∧ p.name = q.name))

/-- Every peer_count is nonnegative and at most the number of rows
    referencing its network. -/
def CountsLe (db : DB) : Prop :=
  ∀ n ∈ db.networks, 0 ≤ n.peer_count ∧ n.peer_count ≤ (peerRows db n.id : Int)

/-- Every peer_count equals the number of rows referencing its network. -/
def CountsEq (db : DB) : Prop :=
  ∀ n ∈ db.networks, n.peer_count = (peerRows db n.id : Int)

/-- No two peers of one network hold the same IP. -/
def IpUnique (db : DB) : Prop :=
  db.peers.Pairwise (fun p q => p.network_id = q.network_id → p.ip.isSome → p.ip ≠ q.ip)

/-- Checks that every addition in the sequence is auto-assigned (no explicit
    IP supplied). -/
def autoOnly (acts : List Act) : Bool :=
  acts.all (fun a => match a with | .add _ _ ip => ip == none | .remove _ _ => true)

/-- Usable host addresses in the claim's words: ascending numeric order,
    network and broadcast addresses excluded. -/
def usableHosts (c : Cidr) : List Nat :=
  ((List.range c.numAddrs).map (fun i => c.base + i)).filter
    (fun a => a != c.base && a != c.base + c.numAddrs - 1)

/-- IPs currently assigned in a network: the ip values of its peer rows. -/
def assignedIps (db : DB) (nid : Nat) : List String :=
  (db.peers.filter (fun p => p.network_id == nid)).filterMap Peer.ip

instance (db : DB) : Decidable (UniqueNames db) := by unfold UniqueNames; infer_instance

instance (db : DB) : Decidable (CountsLe db) := by unfold CountsLe; infer_instance

instance (db : DB) : Decidable (CountsEq db) := by unfold CountsEq; infer_instance

instance (db : DB) : Decidable (IpUnique db) := by unfold IpUnique; infer_instance

/-- The network 10.0.0.0/30. -/
def net30 : Cidr := ⟨false, 167772160, 30⟩

/-- State after creating network Lab on 10.0.0.0/30. -/
def dbLab : DB := ⟨[⟨0, "Lab", net30, "", 0⟩], [], 1⟩

def pA : Peer := ⟨1, 0, "a", some "10.0.0.1", "pk1", "10.0.0.1/32", none, none, "disconnected", []⟩
def pB : Peer := ⟨2, 0, "b", some "10.0.0.2", "pk2", "10.0.0.2/32", none, none, "disconnected", []⟩
def pC : Peer := ⟨3, 0, "c", none, "pk3", "None/32", none, none, "disconnected", []⟩

/-- State after one auto-assigned addition on dbLab. -/
def dbLab1 : DB := ⟨[⟨0, "Lab", net30, "", 1⟩], [pA], 2⟩

/-- State after two auto-assigned additions on dbLab. -/
def dbLab2 : DB := ⟨[⟨0, "Lab", net30, "", 2⟩], [pA, pB], 3⟩

/-- State after three auto-assigned additions on dbLab: the third insert has
    a NULL ip. -/
def dbLab3 : DB := ⟨[⟨0, "Lab", net30, "", 3⟩], [pA, pB, pC], 4⟩

def pX : Peer := ⟨1, 0, "a", some "10.0.0.5", "pk1", "10.0.0.5/32", none, none, "disconnected", []⟩
def pY : Peer := ⟨2, 0, "c", some "10.0.0.5", "pk2", "10.0.0.5/32", none, none, "disconnected", []⟩

/-- State after adding peer a with the explicit IP 10.0.0.5 on dbLab. -/
def dbDupA : DB := ⟨[⟨0, "Lab", net30, "", 1⟩], [pX], 2⟩

/-- State after adding peer c with the same explicit IP on dbDupA. -/
def dbDupB : DB := ⟨[⟨0, "Lab", net30, "", 2⟩], [pX, pY], 3⟩

/-- Splitting a countP over a conjunction with a predicate and its negation. -/
theorem countP_and_split {α : Type} (l : List α) (f g : α → Bool) :
    l.countP (fun a => f a && g a) + l.countP (fun a => f a && !g a) = l.countP f := by
  induction l with
  | nil => simp
  | cons h t ih =>
    simp only [List.countP_cons]
    cases hf : f h <;> cases hg : g h <;> simp [hf, hg] <;> omega

/-- Under the UNIQUE (network_id, name) constraint, at most one row matches a
    given (network_id, name) pair. -/
theorem countP_pair_le_one (l : List Peer) (nid : Nat) (nm : String)
    (h : l.Pairwise (fun p q => ¬(p.network_id = q.network_id ∧ p.name = q.name))) :
    l.countP (fun p => p.network_id == nid && p.name == nm) ≤ 1 := by
  induction l with
  | nil => simp
  | cons p t ih =>
    have hp := List.pairwise_cons.mp h
    simp only [List.countP_cons]
    by_cases hm : (p.network_id == nid && p.name == nm) = true
    · have h0 : t.countP (fun q => q.network_id == nid && q.name == nm) = 0 :=
        List.countP_eq_zero.mpr (fun q hq => by
          simp only [Bool.and_eq_true, beq_iff_eq] at hm ⊢
          rintro ⟨h1, h2⟩
          exact hp.1 q hq ⟨hm.1.trans h1.symm, hm.2.trans h2.symm⟩)
      simp [hm, h0]
    · have := ih hp.2
      simp [hm]
      omega

/-- find? commutes with a map that leaves the tested predicate unchanged. -/
theorem find?_map_comm {α : Type} (l : List α) (f : α → α) (p : α → Bool)
    (h : ∀ a, p (f a) = p a) :
    (l.map f).find? p = (l.find? p).map f := by
  induction l with
  | nil => rfl
  | cons a t ih =>
    cases hpa : p a with
    | false =>
      rw [List.map_cons, List.find?_cons_of_neg _ (by simp [h, hpa]),
        List.find?_cons_of_neg _ (by simp [hpa]), ih]
    | true =>
      rw [List.map_cons, List.find?_cons_of_pos _ (by simp [h, hpa]),
        List.find?_cons_of_pos _ hpa, Option.map_some']

/-- On a list sorted in ascending order, find? returns a least element among
    those satisfying the predicate. -/
theorem find?_min_sorted (l : List Nat) (p : Nat → Bool) (a : Nat)
    (hs : l.Pairwise (fun x y => x ≤ y)) (h : l.find? p = some a) :
    ∀ b ∈ l, p b = true → a ≤ b := by
  induction l with
  | nil => simp at h
  | cons x t ih =>
    have hx := List.pairwise_cons.mp hs
    cases hpx : p x with
    | false =>
      rw [List.find?_cons_of_neg _ (by simp [hpx])] at h
      intro b hb hpb
      rcases List.mem_cons.mp hb with rfl | hbt
      · rw [hpx] at hpb; cases hpb
      · exact ih hx.2 h b hbt hpb
    | true =>
      rw [List.find?_cons_of_pos _ hpx] at h
      injection h with h
      subst h
      intro b hb hpb
      rcases List.mem_cons.mp hb with rfl | hbt
      · exact Nat.le_refl _
      · exact hx.1 b hbt

/-- range' is sorted in ascending order. -/
theorem pairwise_le_range' (s n : Nat) : (List.range' s n).Pairwise (fun x y => x ≤ y) := by
  induction n generalizing s with
  | zero => simp
  | succ m ih =>
    rw [List.range'_succ]
    refine List.pairwise_cons.mpr ⟨?_, ih (s + 1)⟩
    intro b hb
    obtain ⟨i, _, rfl⟩ := List.mem_range'.mp hb
    omega

/-- C2: evaluation of the code at the failing input.  On the fresh /30
    network Lab the first two auto-assigned additions succeed with 10.0.0.1
    and 10.0.0.2, and the third one ALSO succeeds: the auto-assignment loop
    finds no free host, leaves ip as None, and add_peer inserts a peer row
    with a NULL ip and allowed_ips None/32 instead of failing with
    AddressSpaceExhausted. -/
theorem c2_exhaustion_inserts_null_ip :
    create_network emptyDB "Lab" (some net30) "" = .ok (0, dbLab) ∧
    add_peer dbLab 0 "a" none = .ok (1, dbLab1) ∧
    add_peer dbLab1 0 "b" none = .ok (2, dbLab2) ∧
    add_peer dbLab2 0 "c" none = .ok (3, dbLab3) ∧
    pA.ip = some "10.0.0.1" ∧ pB.ip = some "10.0.0.2" ∧
    dbLab3.peers = [pA, pB, pC] ∧ pC.ip = none ∧ pC.allowed_ips = "None/32" :=
  ⟨rfl, rfl, rfl, rfl, rfl, rfl, rfl, rfl, rfl⟩

/-- C5: create_network fails with invalidCIDR when the prefix does not parse,
    fails with duplicateName when a network with that name exists, and
    otherwise persists a new Network row with peer_count 0 and returns its
    identifier. -/
theorem c5_create_network (db : DB) (nm desc : String) (c : Cidr) :
    create_network db nm none desc = .error .invalidCIDR ∧
    ((∃ n ∈ db.networks, n.name = nm) →
      create_network db nm (some c) desc = .error .duplicateName) ∧
    ((∀ n ∈ db.networks, n.name ≠ nm) →
      create_network db nm (some c) desc = .ok (db.next_id,
        { db with
          networks := db.networks ++
            [{ id := db.next_id, name := nm, cidr := c, description := desc, peer_count := 0 }],
          next_id := db.next_id + 1 })) := by
  refine ⟨rfl, ?_, ?_⟩
  · rintro ⟨n, hn, he⟩
    have ha : db.networks.any (fun n => n.name == nm) = true :=
      List.any_eq_true.mpr ⟨n, hn, by simp [he]⟩
    simp [create_network, ha]
  · intro h
    have ha : db.networks.any (fun n => n.name == nm) = false :=
      List.any_eq_false.mpr (fun n hn => by simp [h n hn])
    simp [create_network, ha]

/-- C5 witness: the three branches at concrete inputs. -/
theorem c5_witness :
    create_network emptyDB "Lab" none "" = .error .invalidCIDR ∧
    (∃ n ∈ dbLab.networks, n.name = "Lab") ∧
    create_network dbLab "Lab" (some net30) "" = .error .duplicateName ∧
    (∀ n ∈ dbLab.networks, n.name ≠ "Extra") ∧
    create_network dbLab "Extra" (some net30) "" = .ok (1,
      { dbLab with
        networks := dbLab.networks ++
          [{ id := 1, name := "Extra", cidr := net30, description := "", peer_count := 0 }],
        next_id := 2 }) :=
  ⟨(c5_create_network emptyDB "Lab" "" net30).1,
   by decide,
   (c5_create_network dbLab "Lab" "" net30).2.1 (by decide),
   by decide,
   (c5_create_network dbLab "Extra" "" net30).2.2 (by decide)⟩

/-- C8: assign_group with a group outside the fixed closed set fails with
    invalidGroup regardless of prior state; with a group inside the set it
    fails with peerNotFound when no peer has the given name. -/
theorem c8_assign_group_errors (db : DB) (nm grp : String) :
    (grp ∉ validGroups → assign_group db nm grp = .error .invalidGroup) ∧
    (grp ∈ validGroups → (∀ p ∈ db.peers, p.name ≠ nm) →
      assign_group db nm grp = .error .peerNotFound) := by
  constructor
  · intro h
    simp [assign_group, h]
  · intro hg hp
    have hf : db.peers.find? (fun p => p.name == nm) = none :=
      List.find?_eq_none.mpr (fun p hpp => by simp [hp p hpp])
    simp [assign_group, hg, hf]

/-- C8 witness: both error branches at concrete inputs. -/
theorem c8_witness :
    ("bogus" ∉ validGroups) ∧
    assign_group dbLab1 "a" "bogus" = .error .invalidGroup ∧
    ("admin" ∈ validGroups) ∧ (∀ p ∈ dbLab.peers, p.name ≠ "a") ∧
    assign_group dbLab "a" "admin" = .error .peerNotFound :=
  ⟨by decide,
   (c8_assign_group_errors dbLab1 "a" "bogus").1 (by decide),
   by decide, by decide,
   (c8_assign_group_errors dbLab "a" "admin").2 (by decide) (by decide)⟩

/-- C9: get_status hands the persisted state back unchanged and returns all
    networks, the number of peers whose status is connected, and the sum of
    peer_count over all networks. -/
theorem c9_status_pure (db : DB) :
    (get_status db).2 = db ∧
    (get_status db).1.networks = db.networks ∧
    (get_status db).1.connected_peers = db.peers.countP (fun p => p.status == "connected") ∧
    (get_status db).1.total_peers = (db.networks.map Network.peer_count).sum := by
  refine ⟨rfl, rfl, ?_, ?_⟩
  · simp [get_status, List.countP_eq_length_filter]
  · show (db.networks.map Network.peer_count).foldl (fun a b => a + b) 0 = _
    rw [List.sum_eq_foldl]

/-- C10: every peer add_peer persists starts disconnected with no endpoint,
    no last handshake, an empty group list, and an allowed_ips mask of its
    assigned IP followed by /32 (the literal None followed by /32 when the
    ip column is NULL). -/
theorem c10_new_peer_fields (db : DB) (nid : Nat) (nm : String) (ip : Option String)
    (pid : Nat) (db' : DB) (h : add_peer db nid nm ip = .ok (pid, db')) :
    pid = db.next_id ∧
    ∃ p : Peer, db'.peers = db.peers ++ [p] ∧ p.id = pid ∧
      p.status = "disconnected" ∧ p.endpoint = none ∧ p.last_handshake = none ∧
      p.groups = [] ∧
      p.allowed_ips = (match p.ip with | some s => s | none => "None") ++ "/32" ∧
      (∀ s, p.ip = some s → p.allowed_ips = s ++ "/32") := by
  unfold add_peer at h
  cases hf : db.networks.find? (fun n => n.id == nid) with
  | none => rw [hf] at h; exact (Except.noConfusion h)
  | some nw =>
    rw [hf] at h
    by_cases ha : db.peers.any (fun p => p.network_id == nid && p.name == nm) = true
    · simp only [ha, if_true] at h
      exact (Except.noConfusion h)
    · simp only [eq_false_of_ne_true ha, if_false, Except.ok.injEq, Prod.mk.injEq] at h
      obtain ⟨rfl, rfl⟩ := h
      refine ⟨rfl, newPeer db.next_id nid nm
        (match ip with
         | some s => some s
         | none => autoAssign nw.cidr (existingIps db nid)), rfl, rfl, rfl, rfl, rfl, rfl, rfl, ?_⟩
      intro s hs
      simp only [newPeer] at hs ⊢
      rw [hs]

/-- C10 witness: a concrete successful addition. -/
theorem c10_witness :
    add_peer dbLab 0 "a" none = .ok (1, dbLab1) ∧
    (1 = dbLab.next_id ∧
    ∃ p : Peer, dbLab1.peers = dbLab.peers ++ [p] ∧ p.id = 1 ∧
      p.status = "disconnected" ∧ p.endpoint = none ∧ p.last_handshake = none ∧
      p.groups = [] ∧
      p.allowed_ips = (match p.ip with | some s => s | none => "None") ++ "/32" ∧
      (∀ s, p.ip = some s → p.allowed_ips = s ++ "/32")) :=
  ⟨rfl, c10_new_peer_fields dbLab 0 "a" none 1 dbLab1 rfl⟩

/-- C1 counterexample: from the reachable state with network Lab holding one
    peer a (peer_count 1, one row), removing the absent peer b deletes no row
    but still decrements peer_count to 0, so peer_count no longer equals the
    number of peer rows referencing the network. -/
theorem c1_counterexample :
    add_peer dbLab 0 "a" none = .ok (1, dbLab1) ∧
    CountsEq dbLab1 ∧
    (∀ p ∈ dbLab1.peers, ¬(p.network_id = 0 ∧ p.name = "b")) ∧
    run dbLab1 [Act.remove 0 "b"] = ⟨[⟨0, "Lab", net30, "", 0⟩], [pA], 2⟩ ∧
    ¬ CountsEq (run dbLab1 [Act.remove 0 "b"]) :=
  ⟨rfl, by decide, by decide, rfl, by decide⟩

/-- C3 counterexample: two additions with the same explicitly supplied IP
    both succeed, leaving two distinct peers of one network holding the same
    IP 10.0.0.5. -/
theorem c3_counterexample :
    add_peer dbLab 0 "a" (some "10.0.0.5") = .ok (1, dbDupA) ∧
    add_peer dbDupA 0 "c" (some "10.0.0.5") = .ok (2, dbDupB) ∧
    pX.network_id = pY.network_id ∧ pX.ip = some "10.0.0.5" ∧ pY.ip = some "10.0.0.5" ∧
    dbDupB.peers = [pX, pY] ∧
    ¬ IpUnique dbDupB :=
  ⟨rfl, rfl, rfl, rfl, rfl, rfl, by decide⟩

/-- C6 counterexample: removing a peer name absent from the network is NOT a
    no-op: no row of dbLab1 matches (0, b), yet remove_peer changes the state
    (peer_count drops from 1 to 0). -/
theorem c6_counterexample :
    (∀ p ∈ dbLab1.peers, ¬(p.network_id = 0 ∧ p.name = "b")) ∧
    remove_peer dbLab1 0 "b" ≠ dbLab1 :=
  ⟨by decide, by decide⟩

/-- assign_group on a valid group and a found first row rewrites every row
    with that name to the groups value computed from the found row. -/
theorem assign_group_found (db : DB) (q : Peer) (nm grp : String)
    (hcg : validGroups.contains grp = true)
    (hq : db.peers.find? (fun p => p.name == nm) = some q) :
    assign_group db nm grp = .ok { db with
      peers := db.peers.map (fun r =>
        if r.name == nm then
          { r with groups := if q.groups.contains grp then q.groups else q.groups ++ [grp] }
        else r) } := by
  unfold assign_group
  rw [if_pos hcg, hq]

/-- Pointwise relation between a list and its map. -/
theorem forall₂_map_self {α : Type} (l : List α) (f : α → α) (R : α → α → Prop)
    (h : ∀ a ∈ l, R a (f a)) : List.Forall₂ R l (l.map f) := by
  induction l with
  | nil => exact List.Forall₂.nil
  | cons a t ih =>
    exact List.Forall₂.cons (h a (List.mem_cons_self a t))
      (ih fun b hb => h b (List.mem_cons_of_mem _ hb))

/-- C7: assign_group is idempotent: for an existing peer and a valid group,
    a second identical assignment returns exactly the state the first one
    produced (in particular the peer's group list is unchanged: set
    semantics, no duplicate entries). -/
theorem c7_assign_group_idempotent (db : DB) (nm grp : String)
    (hg : grp ∈ validGroups) (hp : ∃ p ∈ db.peers, p.name = nm) :
    ∃ db1, assign_group db nm grp = .ok db1 ∧ assign_group db1 nm grp = .ok db1 := by
  have hcg : validGroups.contains grp = true := by simpa using hg
  obtain ⟨p0, hp0, hname⟩ := hp
  have hfs : (db.peers.find? (fun p => p.name == nm)).isSome :=
    List.find?_isSome.mpr ⟨p0, hp0, by simp [hname]⟩
  obtain ⟨q, hq⟩ := Option.isSome_iff_exists.mp hfs
  have hqname := List.find?_some hq
  set G := if q.groups.contains grp then q.groups else q.groups ++ [grp] with hG
  have hgrpG : G.contains grp = true := by
    rw [hG]
    by_cases hc : q.groups.contains grp = true
    · rw [if_pos hc]; exact hc
    · rw [if_neg hc]; simp
  set f := fun r : Peer => if r.name == nm then { r with groups := G } else r with hf
  have hfname : ∀ r : Peer, ((f r).name == nm) = (r.name == nm) := by
    intro r
    rw [hf]
    by_cases hr : (r.name == nm) = true
    · simp [hr]
    · simp [hr]
  have hidem : (db.peers.map f).map f = db.peers.map f := by
    rw [List.map_map]
    apply List.map_congr_left
    intro a _
    show f (f a) = f a
    by_cases haa : (a.name == nm) = true
    · rw [hf]; simp [haa]
    · rw [hf]; simp [haa]
  refine ⟨{ db with peers := db.peers.map f }, ?_, ?_⟩
  · rw [assign_group_found db q nm grp hcg hq]
  · have hfind2 : ((db.peers.map f).find? (fun p => p.name == nm)) = some (f q) := by
      rw [find?_map_comm db.peers f _ hfname, hq, Option.map_some']
    have hfq : f q = { q with groups := G } := by rw [hf]; simp [hqname]
    have := assign_group_found { db with peers := db.peers.map f } (f q) nm grp hcg hfind2
    rw [this]
    simp only [hfq, hgrpG, if_pos]
    rw [← hf, hidem]

/-- C7 witness: assigning admin twice to peer a. -/
theorem c7_witness :
    ("admin" ∈ validGroups) ∧ (∃ p ∈ dbLab1.peers, p.name = "a") ∧
    ∃ db1, assign_group dbLab1 "a" "admin" = .ok db1 ∧
      assign_group db1 "a" "admin" = .ok db1 :=
  ⟨by decide, by decide, c7_assign_group_idempotent dbLab1 "a" "admin" (by decide) (by decide)⟩

/-- C6 amended: remove_peer deletes exactly the rows matching
    (network_id, name) and raises nothing, but it is not a no-op when no row
    matches: pointwise on the networks table, the peer_count of the network
    with the given id is still decremented whenever it is positive, and it
    never drops below zero. -/
theorem c6_remove_peer (db : DB) (nid : Nat) (nm : String) :
    (∀ p : Peer, p ∈ (remove_peer db nid nm).peers ↔
      (p ∈ db.peers ∧ ¬(p.network_id = nid ∧ p.name = nm))) ∧
    List.Forall₂ (fun n n' : Network => n'.id = n.id ∧ n'.name = n.name ∧ n'.cidr = n.cidr ∧
        (n'.peer_count = if n.id = nid ∧ 0 < n.peer_count then n.peer_count - 1
          else n.peer_count) ∧
        (0 ≤ n.peer_count → 0 ≤ n'.peer_count))
      db.networks (remove_peer db nid nm).networks := by
  constructor
  · intro p
    simp only [remove_peer, List.mem_filter]
    constructor
    · rintro ⟨hp, hb⟩
      refine ⟨hp, ?_⟩
      rintro ⟨h1, h2⟩
      simp [h1, h2] at hb
    · rintro ⟨hp, hb⟩
      refine ⟨hp, ?_⟩
      simp only [Bool.not_eq_true', Bool.and_eq_false_iff]
      by_cases h1 : p.network_id = nid
      · by_cases h2 : p.name = nm
        · exact absurd ⟨h1, h2⟩ hb
        · right; simpa using h2
      · left; simpa using h1
  · show List.Forall₂ _ db.networks (db.networks.map _)
    apply forall₂_map_self
    intro n _
    dsimp only
    by_cases hc : n.id = nid ∧ 0 < n.peer_count
    · simp only [if_pos hc, true_and]
      intro _
      omega
    · simp only [if_neg hc, true_and]
      exact fun h => h

/-- C6 witness: the characterization at a concrete state. -/
theorem c6_witness :
    (∀ p : Peer, p ∈ (remove_peer dbLab1 0 "a").peers ↔
      (p ∈ dbLab1.peers ∧ ¬(p.network_id = 0 ∧ p.name = "a"))) ∧
    List.Forall₂ (fun n n' : Network => n'.id = n.id ∧ n'.name = n.name ∧ n'.cidr = n.cidr ∧
        (n'.peer_count = if n.id = 0 ∧ 0 < n.peer_count then n.peer_count - 1
          else n.peer_count) ∧
        (0 ≤ n.peer_count → 0 ≤ n'.peer_count))
      dbLab1.networks (remove_peer dbLab1 0 "a").networks :=
  c6_remove_peer dbLab1 0 "a"

/-- The dotted-quad string of an address is never empty. -/
theorem ipv4Str_ne_empty (a : Nat) : ipv4Str a ≠ "" := by
  intro h
  have h2 := congrArg String.length h
  simp only [ipv4Str, String.length_append] at h2
  have hdot : (".").length = 1 := rfl
  have hnil : ("" : String).length = 0 := rfl
  rw [hdot, hnil] at h2
  omega

/-- joinColon of a list with at least two entries contains a separator. -/
theorem joinColon_cons2_ne (a b : String) (t : List String) : joinColon (a :: b :: t) ≠ "" := by
  intro h
  have he : joinColon (a :: b :: t) = a ++ ":" ++ joinColon (b :: t) := rfl
  rw [he] at h
  have h2 := congrArg String.length h
  simp only [String.length_append] at h2
  have hc : (":").length = 1 := rfl
  have hnil : ("" : String).length = 0 := rfl
  rw [hc, hnil] at h2
  omega

/-- joinColon of a list of length at least two is nonempty. -/
theorem joinColon_ne_of_two (l : List String) (h : 2 ≤ l.length) : joinColon l ≠ "" := by
  match l with
  | [] => simp at h
  | [a] => simp at h
  | a :: b :: t => exact joinColon_cons2_ne a b t

/-- The compressed IPv6 string of an address is never empty. -/
theorem ipv6Str_ne_empty (a : Nat) : ipv6Str a ≠ "" := by
  have h8 : (ipv6Groups a).length = 8 := rfl
  simp only [ipv6Str]
  split
  · split
    · apply joinColon_ne_of_two
      simp only [List.length_cons, List.length_append]
      omega
    · apply joinColon_ne_of_two
      simp only [List.length_append, List.length_take, List.length_cons]
      have hbs : 0 < (bestRunAux (ipv6Groups a) 0 (-1) 0 (-1) 0).1.toNat := by omega
      have hlen1 : 8 ≤ (if (bestRunAux (ipv6Groups a) 0 (-1) 0 (-1) 0).1.toNat +
          (bestRunAux (ipv6Groups a) 0 (-1) 0 (-1) 0).2 = (ipv6Groups a).length
          then ipv6Groups a ++ [""] else ipv6Groups a).length := by
        split <;> simp [h8]
      omega
  · apply joinColon_ne_of_two
    rw [h8]
    omega

/-- Python str of an address number is never the empty string. -/
theorem ipToStr_ne_empty (v6 : Bool) (a : Nat) : ipToStr v6 a ≠ "" := by
  cases v6 with
  | false => exact ipv4Str_ne_empty a
  | true => exact ipv6Str_ne_empty a

/-- The claim's usable hosts are the interval strictly between the network
    and broadcast addresses. -/
theorem usableHosts_eq (c : Cidr) :
    usableHosts c = List.range' (c.base + 1) (c.numAddrs - 2) := by
  have hn : 0 < c.numAddrs := Nat.pow_pos (by norm_num)
  unfold usableHosts
  rw [← List.range'_eq_map_range]
  cases hcn : c.numAddrs with
  | zero => omega
  | succ n =>
    cases n with
    | zero => simp [List.range'_succ]
    | succ m =>
      have harith : c.base + (m + 1 + 1) - 1 = c.base + m + 1 := by omega
      simp only [harith]
      rw [List.range'_succ]
      have hconcat : List.range' (c.base + 1) (m + 1) =
          List.range' (c.base + 1) m ++ [c.base + 1 + m] := by
        rw [List.range'_concat]
        simp
      rw [hconcat]
      have hb : ((c.base != c.base) && (c.base != c.base + m + 1)) = false := by simp
      have heq : c.base + 1 + m = c.base + m + 1 := by omega
      have hl : ((c.base + 1 + m != c.base) && (c.base + 1 + m != c.base + m + 1)) = false := by
        rw [heq]
        simp
      have hmid : (List.range' (c.base + 1) m).filter
          (fun a => a != c.base && a != c.base + m + 1) = List.range' (c.base + 1) m := by
        apply List.filter_eq_self.mpr
        intro a ha
        obtain ⟨i, hi, rfl⟩ := List.mem_range'.mp ha
        simp only [Bool.and_eq_true, bne_iff_ne, ne_eq]
        constructor <;> omega
      simp [List.filter_cons, List.filter_append, hb, hl, hmid]

/-- Python hosts() on an IPv4 network of prefix length at most 30 is the
    interval strictly between the network and broadcast addresses. -/
theorem hostsList_v4 (c : Cidr) (h6 : c.v6 = false) (hp : c.prefixlen ≤ 30) :
    hostsList c = List.range' (c.base + 1) (c.numAddrs - 2) := by
  unfold hostsList
  rw [h6]
  simp only [Bool.false_eq_true, if_false, if_neg (show ¬(31 ≤ c.prefixlen) by omega)]
  rw [← List.range'_eq_map_range]

/-- A nonempty string is among the truthiness-filtered existing IPs exactly
    when it is among the assigned IPs. -/
theorem mem_existing_iff (db : DB) (nid : Nat) (s : String) (hs : s ≠ "") :
    s ∈ existingIps db nid ↔ s ∈ assignedIps db nid := by
  unfold existingIps assignedIps
  rw [List.mem_filter]
  constructor
  · exact fun h => h.1
  · intro h
    exact ⟨h, by simp [hs]⟩

/-- On IPv4, a usable host exists only when the prefix length is at most
    30: otherwise the usable set in the claim's sense is empty. -/
theorem plen_le_30_of_usable (c : Cidr) (h6 : c.v6 = false) (a : Nat)
    (ha : a ∈ usableHosts c) : c.prefixlen ≤ 30 := by
  by_contra h
  have h1 : c.numAddrs ≤ 2 := by
    unfold Cidr.numAddrs Cidr.width
    rw [h6]
    calc 2 ^ ((if false = true then 128 else 32) - c.prefixlen)
        ≤ 2 ^ 1 := Nat.pow_le_pow_right (by norm_num) (by simp; omega)
      _ = 2 := rfl
  have h2 : usableHosts c = [] := by
    rw [usableHosts_eq]
    have hz : c.numAddrs - 2 = 0 := by omega
    rw [hz]
    rfl
  rw [h2] at ha
  cases ha

/-- C4: when add_peer is called without an explicit IP on an IPv4 network
    and some usable host (network and broadcast excluded) is unassigned, the
    call succeeds and the new peer is given the lowest such address not
    present among the network's assigned IPs. -/
theorem c4_lowest_free_host (db : DB) (nid : Nat) (nm : String) (nw : Network)
    (hfind : db.networks.find? (fun n => n.id == nid) = some nw)
    (hv4 : nw.cidr.v6 = false)
    (hname : db.peers.any (fun p => p.network_id == nid && p.name == nm) = false)
    (hex : ∃ a ∈ usableHosts nw.cidr, ipToStr false a ∉ assignedIps db nid) :
    ∃ a : Nat,
      add_peer db nid nm none = .ok (db.next_id,
        { db with
          peers := db.peers ++ [newPeer db.next_id nid nm (some (ipToStr false a))],
          networks := bumpNetworks db.networks nid,
          next_id := db.next_id + 1 }) ∧
      a ∈ usableHosts nw.cidr ∧ ipToStr false a ∉ assignedIps db nid ∧
      ∀ b ∈ usableHosts nw.cidr, ipToStr false b ∉ assignedIps db nid → a ≤ b := by
  obtain ⟨a0, ha0, ha0n⟩ := hex
  have hple : nw.cidr.prefixlen ≤ 30 := plen_le_30_of_usable _ hv4 a0 ha0
  have hhost : hostsList nw.cidr = usableHosts nw.cidr := by
    rw [hostsList_v4 _ hv4 hple, usableHosts_eq]
  have hpred : ∀ b : Nat,
      ((!((existingIps db nid).contains (ipToStr nw.cidr.v6 b))) = true) ↔
        ipToStr false b ∉ assignedIps db nid := by
    intro b
    rw [hv4, Bool.not_eq_true']
    constructor
    · intro hcf hmem
      have hct : (existingIps db nid).contains (ipToStr false b) = true := by
        simp only [List.contains, List.elem_eq_mem, decide_eq_true_eq]
        exact (mem_existing_iff db nid _ (ipToStr_ne_empty false b)).mpr hmem
      rw [hct] at hcf
      cases hcf
    · intro hnm
      rw [← Bool.not_eq_true]
      intro hct
      have hin : ipToStr false b ∈ existingIps db nid := by
        simpa only [List.contains, List.elem_eq_mem, decide_eq_true_eq] using hct
      exact hnm ((mem_existing_iff db nid _ (ipToStr_ne_empty false b)).mp hin)
  have hfsome : ((hostsList nw.cidr).find?
      (fun b => !((existingIps db nid).contains (ipToStr nw.cidr.v6 b)))).isSome := by
    apply List.find?_isSome.mpr
    refine ⟨a0, ?_, (hpred a0).mpr ha0n⟩
    rw [hhost]
    exact ha0
  obtain ⟨a, hafind⟩ := Option.isSome_iff_exists.mp hfsome
  have hamem : a ∈ usableHosts nw.cidr := by
    rw [← hhost]
    exact List.mem_of_find?_eq_some hafind
  have hap := List.find?_some hafind
  have hanotin : ipToStr false a ∉ assignedIps db nid := (hpred a).mp hap
  have hsorted : (hostsList nw.cidr).Pairwise (fun x y => x ≤ y) := by
    rw [hostsList_v4 _ hv4 hple]
    exact pairwise_le_range' _ _
  have hmin : ∀ b ∈ usableHosts nw.cidr, ipToStr false b ∉ assignedIps db nid → a ≤ b := by
    intro b hb hbn
    refine find?_min_sorted _ _ a hsorted hafind b ?_ ((hpred b).mpr hbn)
    rw [hhost]
    exact hb
  refine ⟨a, ?_, hamem, hanotin, hmin⟩
  have hauto : autoAssign nw.cidr (existingIps db nid) = some (ipToStr nw.cidr.v6 a) := by
    unfold autoAssign
    rw [hafind, Option.map_some']
  unfold add_peer
  rw [hfind]
  dsimp only
  simp only [hauto, hname, Bool.false_eq_true, if_false, hv4]

/-- C4 witness: on network Lab with 10.0.0.1 taken, the next auto-assigned
    peer gets the lowest free usable host. -/
theorem c4_witness :
    dbLab1.networks.find? (fun n => n.id == 0) = some ⟨0, "Lab", net30, "", 1⟩ ∧
    (⟨0, "Lab", net30, "", 1⟩ : Network).cidr.v6 = false ∧
    dbLab1.peers.any (fun p => p.network_id == 0 && p.name == "b") = false ∧
    (∃ a ∈ usableHosts net30, ipToStr false a ∉ assignedIps dbLab1 0) ∧
    ∃ a : Nat,
      add_peer dbLab1 0 "b" none = .ok (dbLab1.next_id,
        { dbLab1 with
          peers := dbLab1.peers ++ [newPeer dbLab1.next_id 0 "b" (some (ipToStr false a))],
          networks := bumpNetworks dbLab1.networks 0,
          next_id := dbLab1.next_id + 1 }) ∧
      a ∈ usableHosts net30 ∧ ipToStr false a ∉ assignedIps dbLab1 0 ∧
      ∀ b ∈ usableHosts net30, ipToStr false b ∉ assignedIps dbLab1 0 → a ≤ b :=
  ⟨rfl, rfl, by decide, by decide,
   c4_lowest_free_host dbLab1 0 "b" ⟨0, "Lab", net30, "", 1⟩ rfl rfl (by decide) (by decide)⟩

/-- add_peer either fails leaving the state alone, or appends exactly one
    new peer row and bumps the network's peer_count. -/
theorem add_peer_cases (db : DB) (nid : Nat) (nm : String) (ip : Option String) :
    (∃ e, add_peer db nid nm ip = .error e) ∨
    ∃ nw ipv,
      db.networks.find? (fun n => n.id == nid) = some nw ∧
      db.peers.any (fun p => p.network_id == nid && p.name == nm) = false ∧
      (ip = none → ipv = autoAssign nw.cidr (existingIps db nid)) ∧
      (∀ s, ip = some s → ipv = some s) ∧
      add_peer db nid nm ip = .ok (db.next_id,
        { db with
          peers := db.peers ++ [newPeer db.next_id nid nm ipv],
          networks := bumpNetworks db.networks nid,
          next_id := db.next_id + 1 }) := by
  unfold add_peer
  cases hf : db.networks.find? (fun n => n.id == nid) with
  | none => exact .inl ⟨.networkNotFound, rfl⟩
  | some nw =>
    by_cases ha : db.peers.any (fun p => p.network_id == nid && p.name == nm) = true
    · left
      refine ⟨.duplicateName, ?_⟩
      dsimp only
      rw [if_pos ha]
    · right
      refine ⟨nw,
        (match ip with | some s => some s | none => autoAssign nw.cidr (existingIps db nid)),
        rfl, eq_false_of_ne_true ha, ?_, ?_, ?_⟩
      · intro h
        subst h
        rfl
      · intro s h
        subst h
        rfl
      · dsimp only
        rw [if_neg ha]

/-- A failing add_peer leaves the state unchanged. -/
theorem step_add_of_error (db : DB) (nid : Nat) (nm : String) (ip : Option String) (e : Err)
    (h : add_peer db nid nm ip = .error e) : step db (.add nid nm ip) = db := by
  show (match add_peer db nid nm ip with | .ok r => r.2 | .error _ => db) = db
  rw [h]

/-- A succeeding add_peer moves to the returned state. -/
theorem step_add_of_ok (db : DB) (nid : Nat) (nm : String) (ip : Option String)
    (r : Nat × DB) (h : add_peer db nid nm ip = .ok r) : step db (.add nid nm ip) = r.2 := by
  show (match add_peer db nid nm ip with | .ok r => r.2 | .error _ => db) = r.2
  rw [h]

/-- Row count after a successful addition: one more in the target network,
    unchanged elsewhere. -/
theorem peerRows_add (db : DB) (nid : Nat) (nm : String) (ipv : Option String) (m : Nat) :
    peerRows
      { db with
        peers := db.peers ++ [newPeer db.next_id nid nm ipv],
        networks := bumpNetworks db.networks nid,
        next_id := db.next_id + 1 } m =
      peerRows db m + (if nid = m then 1 else 0) := by
  unfold peerRows
  dsimp only
  rw [List.countP_append]
  congr 1
  simp only [newPeer, List.countP_cons, List.countP_nil]
  by_cases h : nid = m <;> simp [h]

/-- Row count after a removal, away from the target network: unchanged. -/
theorem peerRows_remove_ne (db : DB) (nid : Nat) (nm : String) (m : Nat) (hm : m ≠ nid) :
    peerRows (remove_peer db nid nm) m = peerRows db m := by
  unfold peerRows remove_peer
  dsimp only
  rw [List.countP_filter]
  apply List.countP_congr
  intro p _
  by_cases h1 : p.network_id = m
  · by_cases h2 : p.network_id = nid
    · exact absurd (h1.symm.trans h2) hm
    · simp [h1, hm]
  · simp [h1]

/-- Row count after a removal, in the target network: the rows matching the
    removed (network, name) pair are gone. -/
theorem peerRows_remove_eq (db : DB) (nid : Nat) (nm : String) :
    peerRows (remove_peer db nid nm) nid +
      db.peers.countP (fun p => p.network_id == nid && p.name == nm) = peerRows db nid := by
  unfold peerRows remove_peer
  dsimp only
  rw [List.countP_filter]
  have hcong : db.peers.countP
      (fun p => (p.network_id == nid) && !(p.network_id == nid && p.name == nm)) =
      db.peers.countP (fun p => (p.network_id == nid) && !(p.name == nm)) := by
    apply List.countP_congr
    intro p _
    cases hn : (p.network_id == nid) <;> cases hw : (p.name == nm) <;> simp [hn, hw]
  rw [hcong, Nat.add_comm]
  exact countP_and_split db.peers (fun p => p.network_id == nid) (fun p => p.name == nm)

/-- A successful addition preserves the UNIQUE (network_id, name) invariant. -/
theorem uniqueNames_add (db : DB) (nid : Nat) (nm : String) (ipv : Option String)
    (hU : UniqueNames db)
    (ha : db.peers.any (fun p => p.network_id == nid && p.name == nm) = false) :
    UniqueNames
      { db with
        peers := db.peers ++ [newPeer db.next_id nid nm ipv],
        networks := bumpNetworks db.networks nid,
        next_id := db.next_id + 1 } := by
  unfold UniqueNames at hU ⊢
  dsimp only
  rw [List.pairwise_append]
  refine ⟨hU, List.pairwise_singleton _ _, ?_⟩
  intro p hp q hq
  rw [List.mem_singleton] at hq
  subst hq
  have hnp := List.any_eq_false.mp ha p hp
  intro hcon
  apply hnp
  have h1 : p.network_id = nid := hcon.1
  have h2 : p.name = nm := hcon.2
  simp [h1, h2]

/-- A successful addition preserves the peer_count bounds. -/
theorem countsLe_add (db : DB) (nid : Nat) (nm : String) (ipv : Option String)
    (hLe : CountsLe db) :
    CountsLe
      { db with
        peers := db.peers ++ [newPeer db.next_id nid nm ipv],
        networks := bumpNetworks db.networks nid,
        next_id := db.next_id + 1 } := by
  intro n' hn'
  have hn'2 : n' ∈ db.networks.map
      (fun n => if n.id = nid then { n with peer_count := n.peer_count + 1 } else n) := hn'
  obtain ⟨n, hn, rfl⟩ := List.mem_map.mp hn'2
  obtain ⟨hb1, hb2⟩ := hLe n hn
  have hr := peerRows_add db nid nm ipv
  by_cases hid : n.id = nid
  · rw [if_pos hid]
    dsimp only
    have h1 := hr n.id
    rw [if_pos hid.symm] at h1
    rw [h1]
    refine ⟨by omega, by omega⟩
  · rw [if_neg hid]
    have h1 := hr n.id
    rw [if_neg (fun h => hid h.symm)] at h1
    rw [h1]
    refine ⟨hb1, by omega⟩

/-- A successful addition preserves exact peer_count reconciliation. -/
theorem countsEq_add (db : DB) (nid : Nat) (nm : String) (ipv : Option String)
    (hE : CountsEq db) :
    CountsEq
      { db with
        peers := db.peers ++ [newPeer db.next_id nid nm ipv],
        networks := bumpNetworks db.networks nid,
        next_id := db.next_id + 1 } := by
  intro n' hn'
  have hn'2 : n' ∈ db.networks.map
      (fun n => if n.id = nid then { n with peer_count := n.peer_count + 1 } else n) := hn'
  obtain ⟨n, hn, rfl⟩ := List.mem_map.mp hn'2
  have hb := hE n hn
  have hr := peerRows_add db nid nm ipv
  by_cases hid : n.id = nid
  · rw [if_pos hid]
    dsimp only
    have h1 := hr n.id
    rw [if_pos hid.symm] at h1
    rw [h1]
    omega
  · rw [if_neg hid]
    have h1 := hr n.id
    rw [if_neg (fun h => hid h.symm)] at h1
    rw [h1]
    omega

/-- Removal preserves the UNIQUE (network_id, name) invariant. -/
theorem uniqueNames_remove (db : DB) (nid : Nat) (nm : String) (hU : UniqueNames db) :
    UniqueNames (remove_peer db nid nm) := by
  unfold UniqueNames at hU ⊢
  unfold remove_peer
  dsimp only
  exact List.Pairwise.filter _ hU

/-- Removal preserves the peer_count bounds. -/
theorem countsLe_remove (db : DB) (nid : Nat) (nm : String)
    (hU : UniqueNames db) (hLe : CountsLe db) :
    CountsLe (remove_peer db nid nm) := by
  intro n' hn'
  have hn'2 : n' ∈ db.networks.map (fun n =>
      if n.id = nid ∧ 0 < n.peer_count then { n with peer_count := n.peer_count - 1 }
      else n) := hn'
  obtain ⟨n, hn, rfl⟩ := List.mem_map.mp hn'2
  obtain ⟨hb1, hb2⟩ := hLe n hn
  have hk1 := countP_pair_le_one db.peers nid nm hU
  have h1 := peerRows_remove_eq db nid nm
  by_cases hc : n.id = nid ∧ 0 < n.peer_count
  · rw [if_pos hc]
    obtain ⟨hcid, hcpos⟩ := hc
    dsimp only
    rw [hcid]
    rw [hcid] at hb2
    refine ⟨by omega, by omega⟩
  · rw [if_neg hc]
    by_cases hm : n.id = nid
    · have hpc : ¬ 0 < n.peer_count := fun h => hc ⟨hm, h⟩
      rw [hm] at hb2 ⊢
      refine ⟨hb1, by omega⟩
    · rw [peerRows_remove_ne db nid nm n.id hm]
      exact ⟨hb1, hb2⟩

/-- Removal of an existing peer preserves exact peer_count reconciliation. -/
theorem countsEq_remove (db : DB) (nid : Nat) (nm : String)
    (hU : UniqueNames db) (hE : CountsEq db)
    (hg : db.peers.any (fun p => p.network_id == nid && p.name == nm) = true) :
    CountsEq (remove_peer db nid nm) := by
  have hk1 := countP_pair_le_one db.peers nid nm hU
  have hkpos : 0 < db.peers.countP (fun p => p.network_id == nid && p.name == nm) := by
    rw [List.countP_pos_iff]
    obtain ⟨p, hp, hpp⟩ := List.any_eq_true.mp hg
    exact ⟨p, hp, hpp⟩
  have h1 := peerRows_remove_eq db nid nm
  intro n' hn'
  have hn'2 : n' ∈ db.networks.map (fun n =>
      if n.id = nid ∧ 0 < n.peer_count then { n with peer_count := n.peer_count - 1 }
      else n) := hn'
  obtain ⟨n, hn, rfl⟩ := List.mem_map.mp hn'2
  have hb := hE n hn
  by_cases hm : n.id = nid
  · have hpos : 0 < n.peer_count := by
      rw [hb, hm]
      omega
    rw [if_pos ⟨hm, hpos⟩]
    dsimp only
    rw [hm]
    rw [hm] at hb
    omega
  · rw [if_neg (fun h => hm h.1)]
    rw [peerRows_remove_ne db nid nm n.id hm]
    exact hb

/-- One call preserves the schema invariant and the peer_count bounds, and
    preserves exact reconciliation when every removal hits an existing
    peer. -/
theorem c1_step (db : DB) (a : Act) (hU : UniqueNames db) (hLe : CountsLe db) :
    UniqueNames (step db a) ∧ CountsLe (step db a) ∧
      (CountsEq db → actOk db a → CountsEq (step db a)) := by
  cases a with
  | add nid nm ip =>
    rcases add_peer_cases db nid nm ip with ⟨e, he⟩ | ⟨nw, ipv, hf, ha, _, _, hok⟩
    · rw [step_add_of_error db nid nm ip e he]
      exact ⟨hU, hLe, fun hE _ => hE⟩
    · rw [step_add_of_ok db nid nm ip _ hok]
      dsimp only
      exact ⟨uniqueNames_add db nid nm ipv hU ha, countsLe_add db nid nm ipv hLe,
        fun hE _ => countsEq_add db nid nm ipv hE⟩
  | remove nid nm =>
    exact ⟨uniqueNames_remove db nid nm hU, countsLe_remove db nid nm hU hLe,
      fun hE hg => countsEq_remove db nid nm hU hE hg⟩

/-- goodRun unfolds one call at a time. -/
theorem goodRun_cons (db : DB) (a : Act) (t : List Act) :
    goodRun db (a :: t) = true ↔ actOk db a ∧ goodRun (step db a) t = true := by
  cases a with
  | add nid nm ip => simp [goodRun, actOk]
  | remove nid nm => simp [goodRun, actOk]

/-- C1 amended: from a state satisfying the schema constraint and the
    peer_count bounds, any sequence of addPeer and removePeer calls keeps
    every network's peer_count nonnegative and at most the number of peer
    rows referencing it; peer_count stays exactly equal to that row count
    provided every removePeer call targets a then-existing peer (a removal
    of an absent peer decrements the counter without deleting a row). -/
theorem c1_peer_count_bounds (db : DB) (acts : List Act)
    (hU : UniqueNames db) (hLe : CountsLe db) :
    (UniqueNames (run db acts) ∧ CountsLe (run db acts)) ∧
    (CountsEq db → goodRun db acts = true → CountsEq (run db acts)) := by
  induction acts generalizing db with
  | nil => exact ⟨⟨hU, hLe⟩, fun hE _ => hE⟩
  | cons a t ih =>
    have hrun : run db (a :: t) = run (step db a) t := rfl
    rw [hrun]
    obtain ⟨hU', hLe', hEq'⟩ := c1_step db a hU hLe
    have ihh := ih (step db a) hU' hLe'
    refine ⟨ihh.1, ?_⟩
    intro hE hg
    obtain ⟨hg1, hg2⟩ := (goodRun_cons db a t).mp hg
    exact ihh.2 (hEq' hE hg1) hg2

/-- C1 witness: a concrete run with one explicit addition and one matching
    removal. -/
theorem c1_witness :
    UniqueNames dbLab1 ∧ CountsLe dbLab1 ∧
    ((UniqueNames (run dbLab1 [Act.add 0 "b" (some "10.0.0.7"), Act.remove 0 "a"]) ∧
      CountsLe (run dbLab1 [Act.add 0 "b" (some "10.0.0.7"), Act.remove 0 "a"])) ∧
     (CountsEq dbLab1 →
      goodRun dbLab1 [Act.add 0 "b" (some "10.0.0.7"), Act.remove 0 "a"] = true →
      CountsEq (run dbLab1 [Act.add 0 "b" (some "10.0.0.7"), Act.remove 0 "a"]))) :=
  ⟨by decide, by decide, c1_peer_count_bounds dbLab1 _ (by decide) (by decide)⟩

/-- Removal preserves IP uniqueness. -/
theorem ipUnique_remove (db : DB) (nid : Nat) (nm : String) (h : IpUnique db) :
    IpUnique (remove_peer db nid nm) := by
  unfold IpUnique at h ⊢
  unfold remove_peer
  dsimp only
  exact List.Pairwise.filter _ h

/-- An auto-assigned addition preserves IP uniqueness: the assigned string
    is chosen outside the existing set, and a NULL ip holds no address. -/
theorem ipUnique_add_auto (db : DB) (nid : Nat) (nm : String) (h : IpUnique db) :
    IpUnique (step db (.add nid nm none)) := by
  rcases add_peer_cases db nid nm none with ⟨e, he⟩ | ⟨nw, ipv, hf, ha, hip, _, hok⟩
  · rw [step_add_of_error db nid nm none e he]
    exact h
  · rw [step_add_of_ok db nid nm none _ hok]
    have hipv := hip rfl
    unfold IpUnique at h ⊢
    dsimp only
    rw [List.pairwise_append]
    refine ⟨h, List.pairwise_singleton _ _, ?_⟩
    intro p hp q hq
    rw [List.mem_singleton] at hq
    subst hq
    intro hnet hsome
    have hpnid : p.network_id = nid := hnet
    show p.ip ≠ ipv
    cases hv : autoAssign nw.cidr (existingIps db nid) with
    | none =>
      rw [hipv, hv]
      intro hcon
      rw [hcon] at hsome
      simp at hsome
    | some s =>
      have hv2 := hv
      unfold autoAssign at hv2
      cases hfind : (hostsList nw.cidr).find?
          (fun b => !((existingIps db nid).contains (ipToStr nw.cidr.v6 b))) with
      | none =>
        rw [hfind] at hv2
        cases hv2
      | some b =>
        rw [hfind, Option.map_some'] at hv2
        injection hv2 with hs
        have hbp := List.find?_some hfind
        rw [Bool.not_eq_true'] at hbp
        obtain ⟨t, ht⟩ := Option.isSome_iff_exists.mp hsome
        intro hcon
        have hcon2 : some t = ipv := ht ▸ hcon
        rw [hipv, hv] at hcon2
        injection hcon2 with ht2
        have hts : t = ipToStr nw.cidr.v6 b := ht2.trans hs.symm
        by_cases hte : t = ""
        · refine ipToStr_ne_empty nw.cidr.v6 b ?_
          rw [← hts]
          exact hte
        · have htex : t ∈ existingIps db nid := by
            unfold existingIps
            rw [List.mem_filter]
            constructor
            · rw [List.mem_filterMap]
              exact ⟨p, List.mem_filter.mpr ⟨hp, by simp [hpnid]⟩, ht⟩
            · simp [hte]
          have hct : (existingIps db nid).contains t = true := by
            simp only [List.contains, List.elem_eq_mem, decide_eq_true_eq]
            exact htex
          rw [hts] at hct
          rw [hct] at hbp
          cases hbp

/-- One auto-only call preserves IP uniqueness. -/
theorem c3_step (db : DB) (a : Act) (h : IpUnique db) (hauto : actAuto a) :
    IpUnique (step db a) := by
  cases a with
  | add nid nm ip =>
    have hnone : ip = none := hauto
    subst hnone
    exact ipUnique_add_auto db nid nm h
  | remove nid nm => exact ipUnique_remove db nid nm h

/-- autoOnly unfolds one call at a time. -/
theorem autoOnly_cons (a : Act) (t : List Act) :
    autoOnly (a :: t) = true ↔ actAuto a ∧ autoOnly t = true := by
  cases a with
  | add nid nm ip => simp [autoOnly, actAuto]
  | remove nid nm => simp [autoOnly, actAuto]

/-- C3 amended: over any valid CIDR, any sequence of auto-assigned additions
    (no explicit IP supplied) and removals preserves IP uniqueness within
    each network; an addition with an explicitly supplied IP is inserted
    without any duplicate check and can violate it. -/
theorem c3_auto_ip_unique (db : DB) (acts : List Act)
    (h : IpUnique db) (ha : autoOnly acts = true) :
    IpUnique (run db acts) := by
  induction acts generalizing db with
  | nil => exact h
  | cons a t ih =>
    have hrun : run db (a :: t) = run (step db a) t := rfl
    rw [hrun]
    obtain ⟨ha1, ha2⟩ := (autoOnly_cons a t).mp ha
    exact ih (step db a) (c3_step db a h ha1) ha2

/-- C3 witness: auto-assigned additions and a removal on the /30 network. -/
theorem c3_witness :
    IpUnique dbLab ∧
    autoOnly [Act.add 0 "a" none, Act.add 0 "b" none, Act.remove 0 "a",
      Act.add 0 "c" none] = true ∧
    IpUnique (run dbLab [Act.add 0 "a" none, Act.add 0 "b" none, Act.remove 0 "a",
      Act.add 0 "c" none]) :=
  ⟨by decide, by decide, c3_auto_ip_unique dbLab _ (by decide) (by decide)⟩

end Innernet
